import Mathlib

/-!
Verification of the binary-message-parser framing core
(src/binary-message-parser.js) against its specification.

The JavaScript source is shallowly embedded: byte buffers become `List Nat`
(one entry per byte), JS numbers used as sizes/offsets become `Int`
(all arithmetic in the source stays integral on the paths the theorems
cover), and the event-emitter notification channel becomes an explicit
ordered list of `Notif` values returned alongside the new parser state
(the source schedules each notification with `setImmediate`, which
preserves completion order, so a list models the delivered sequence).
The `while` drain loop of `parseBytes` is embedded with explicit fuel,
because for some extractor/input pairs the JS loop genuinely diverges;
`none` means the fuel ran out before the loop exited.
-/

namespace BinaryMessageParser

/-- Two's-complement reinterpretation of an unsigned `bits`-wide value,
as Node's signed Buffer read methods perform it. -/
def toSigned (bits : Nat) (v : Nat) : Int :=
  if v < 2 ^ (bits - 1) then (v : Int) else (v : Int) - 2 ^ bits

/-- Unsigned byte at index 0 (Node `buf.readUInt8(0)`); out-of-range
reads are totalized to 0, they occur on no path a theorem below relies on. -/
def u8 (l : List Nat) : Nat := l.getD 0 0

/-- Unsigned big-endian 16-bit value at index 0 (Node `buf.readUInt16BE(0)`). -/
def u16BE (l : List Nat) : Nat := l.getD 0 0 * 256 + l.getD 1 0

/-- Unsigned little-endian 16-bit value at index 0 (Node `buf.readUInt16LE(0)`). -/
def u16LE (l : List Nat) : Nat := l.getD 0 0 + l.getD 1 0 * 256

/-- Unsigned big-endian 32-bit value at index 0 (Node `buf.readUInt32BE(0)`). -/
def u32BE (l : List Nat) : Nat :=
  l.getD 0 0 * 16777216 + l.getD 1 0 * 65536 + l.getD 2 0 * 256 + l.getD 3 0

/-- Unsigned little-endian 32-bit value at index 0 (Node `buf.readUInt32LE(0)`). -/
def u32LE (l : List Nat) : Nat :=
  l.getD 0 0 + l.getD 1 0 * 256 + l.getD 2 0 * 65536 + l.getD 3 0 * 16777216

def readUInt8 (l : List Nat) : Int := u8 l
def readInt8 (l : List Nat) : Int := toSigned 8 (u8 l)
def readUInt16BE (l : List Nat) : Int := u16BE l
def readInt16BE (l : List Nat) : Int := toSigned 16 (u16BE l)
def readUInt16LE (l : List Nat) : Int := u16LE l
def readInt16LE (l : List Nat) : Int := toSigned 16 (u16LE l)
def readUInt32BE (l : List Nat) : Int := u32BE l
def readInt32BE (l : List Nat) : Int := toSigned 32 (u32BE l)
def readUInt32LE (l : List Nat) : Int := u32LE l
def readInt32LE (l : List Nat) : Int := toSigned 32 (u32LE l)

/-- The header-extractor strategy object, after construction has resolved
the optional validator (mirrors the object consumed by the parser methods). -/
structure HeaderExtractor where
  headerByteCount : Nat
  extractMessageSize : List Nat → Int
  validateMessageSize : Int → Bool

/-- Source `createPODExtractor(headerByteCount, methodName)`: packages a
fixed-width read with the validator `size => size >= headerByteCount`. -/
def createPODExtractor (headerByteCount : Nat) (read : List Nat → Int) : HeaderExtractor :=
  { headerByteCount := headerByteCount
    extractMessageSize := fun buffer => read buffer
    validateMessageSize := fun size => decide ((headerByteCount : Int) ≤ size) }

def HeaderExtractorInt8 : HeaderExtractor := createPODExtractor 1 readInt8
def HeaderExtractorUInt8 : HeaderExtractor := createPODExtractor 1 readUInt8
def HeaderExtractorInt16LE : HeaderExtractor := createPODExtractor 2 readInt16LE
def HeaderExtractorUInt16LE : HeaderExtractor := createPODExtractor 2 readUInt16LE
def HeaderExtractorInt16BE : HeaderExtractor := createPODExtractor 2 readInt16BE
def HeaderExtractorUInt16BE : HeaderExtractor := createPODExtractor 2 readUInt16BE
def HeaderExtractorInt32LE : HeaderExtractor := createPODExtractor 4 readInt32LE
def HeaderExtractorUInt32LE : HeaderExtractor := createPODExtractor 4 readUInt32LE
def HeaderExtractorInt32BE : HeaderExtractor := createPODExtractor 4 readInt32BE
def HeaderExtractorUInt32BE : HeaderExtractor := createPODExtractor 4 readUInt32BE

/-- One delivered notification: either an emitted `message` event carrying
the message bytes, or an `error` event for an invalid message size whose
context carries the rejected size (the error value itself is always the
single `ERR_INVALID_MSG_SIZE`, so only the size is modelled). -/
inductive Notif where
  | message (bytes : List Nat)
  | error (size : Int)
deriving Repr, DecidableEq

/-- The mutable fields of a `BinaryMessageParser` instance. The buffer is a
`List Nat` whose length is the allocated capacity (Node `Buffer.alloc`
zero-fills, and slots past `unfinishedMessageSize` are dead storage). -/
structure ParserState where
  unfinishedMessageBuffer : List Nat
  unfinishedMessageSize : Nat
  expectedMessageSize : Int
  bMessageHeaderExtracted : Bool
  bShutdown : Bool
deriving Repr, DecidableEq

/-- Node `Buffer.slice` index resolution: a negative index counts from the
end (clamped at 0), a non-negative one is clamped to the length. -/
def sliceIndex (len : Nat) (i : Int) : Nat :=
  if i < 0 then ((len : Int) + i).toNat else min i.toNat len

/-- Node `buf.slice(s, e)`: the bytes from resolved index `s` (inclusive)
to resolved index `e` (exclusive); empty when they cross. -/
def jsSlice (l : List Nat) (s e : Int) : List Nat :=
  (l.take (sliceIndex l.length e)).drop (sliceIndex l.length s)

/-- Node `src.copy(target, targetStart, sourceStart, sourceEnd)`: overwrite
`target` starting at `targetStart` with the selected source bytes, truncated
to the target's capacity (the target's length never changes). -/
def jsCopy (src target : List Nat) (targetStart : Nat) (sourceStart sourceEnd : Int) :
    List Nat :=
  let piece := (jsSlice src sourceStart sourceEnd).take (target.length - targetStart)
  target.take targetStart ++ piece ++ target.drop (targetStart + piece.length)

/-- Source `_extractMessageSize(dataBuffer, offset)`. -/
def extractMessageSizeAt (ex : HeaderExtractor) (dataBuffer : List Nat) (offset : Int) : Int :=
  ex.extractMessageSize (jsSlice dataBuffer offset (offset + ex.headerByteCount))

/-- Source `_appendToUnfinishedMessage(dataBuffer, offset, count)`: either the
remaining capacity holds `count` more bytes and they are copied in place, or
the buffer is reallocated to exactly the carried bytes plus the appended
slice. `unfinishedMessageSize += count` is `Int` addition in JS; the
`.toNat` totalization agrees with it whenever the result is non-negative,
which holds on every path the theorems below traverse. -/
def appendToUnfinishedMessage (st : ParserState) (dataBuffer : List Nat)
    (offset count : Int) : ParserState :=
  let availableSpace : Int :=
    (st.unfinishedMessageBuffer.length : Int) - st.unfinishedMessageSize
  if availableSpace < count then
    let significantUnfinBuffer := st.unfinishedMessageBuffer.take st.unfinishedMessageSize
    let bufferToAppend := jsSlice dataBuffer offset (offset + count)
    { st with
      unfinishedMessageBuffer := significantUnfinBuffer ++ bufferToAppend
      unfinishedMessageSize := ((st.unfinishedMessageSize : Int) + count).toNat }
  else
    { st with
      unfinishedMessageBuffer :=
        jsCopy dataBuffer st.unfinishedMessageBuffer st.unfinishedMessageSize
          offset (offset + count)
      unfinishedMessageSize := ((st.unfinishedMessageSize : Int) + count).toNat }

/-- Source `_reset()`. -/
def reset (st : ParserState) : ParserState :=
  { st with bMessageHeaderExtracted := false, expectedMessageSize := 0,
            unfinishedMessageSize := 0 }

/-- Source `_notifyMessageReceived(dataBuffer, offset, size)`: resets the
carry state, then materializes an owned copy of the `size` message bytes
(`Buffer.alloc(size)` plus `copy`) and schedules the `message` event. -/
def notifyMessageReceived (st : ParserState) (dataBuffer : List Nat)
    (offset size : Int) : ParserState × Notif :=
  let st := reset st
  let message := jsCopy dataBuffer (List.replicate size.toNat 0) 0 offset (offset + size)
  (st, Notif.message message)

/-- Source `_startNewMessage(dataBuffer, offset)`: returns the updated state,
the `bytesParsed` return value (-1 encodes the fatal-error return), and the
notifications scheduled during the call, in order. -/
def startNewMessage (ex : HeaderExtractor) (st : ParserState) (dataBuffer : List Nat)
    (offset : Int) : ParserState × Int × List Notif :=
  let availableBytesCount : Int := (dataBuffer.length : Int) - offset
  if availableBytesCount < (ex.headerByteCount : Int) then
    let st := appendToUnfinishedMessage st dataBuffer offset availableBytesCount
    ({ st with expectedMessageSize := (ex.headerByteCount : Int),
               bMessageHeaderExtracted := false },
     availableBytesCount, [])
  else
    let messageSize := extractMessageSizeAt ex dataBuffer offset
    if ex.validateMessageSize messageSize ≠ true then
      (st, -1, [Notif.error messageSize])
    else if availableBytesCount ≥ messageSize then
      let r := notifyMessageReceived st dataBuffer offset messageSize
      (r.1, messageSize, [r.2])
    else
      let st := appendToUnfinishedMessage st dataBuffer offset availableBytesCount
      ({ st with expectedMessageSize := messageSize, bMessageHeaderExtracted := true },
       availableBytesCount, [])

/-- Source `_continueUnfinishedMessage(dataBuffer, offset)`. -/
def continueUnfinishedMessage (ex : HeaderExtractor) (st : ParserState)
    (dataBuffer : List Nat) (offset : Int) : ParserState × Int × List Notif :=
  let missingBytesCount : Int := st.expectedMessageSize - st.unfinishedMessageSize
  let availableBytesCount : Int := (dataBuffer.length : Int) - offset
  if availableBytesCount < missingBytesCount then
    (appendToUnfinishedMessage st dataBuffer offset availableBytesCount,
     availableBytesCount, [])
  else
    let st := appendToUnfinishedMessage st dataBuffer offset missingBytesCount
    if st.bMessageHeaderExtracted then
      let r := notifyMessageReceived st st.unfinishedMessageBuffer 0 st.expectedMessageSize
      (r.1, missingBytesCount, [r.2])
    else
      let st := { st with
        expectedMessageSize := extractMessageSizeAt ex st.unfinishedMessageBuffer 0,
        bMessageHeaderExtracted := true }
      if ex.validateMessageSize st.expectedMessageSize ≠ true then
        (st, -1, [Notif.error st.expectedMessageSize])
      else
        (st, missingBytesCount, [])

/-- One iteration of the `parseBytes` drain loop: `isFinished()` selects
between starting a new message and continuing the unfinished one. -/
def stepFn (ex : HeaderExtractor) (st : ParserState) (bytes : List Nat)
    (offset : Int) : ParserState × Int × List Notif :=
  if st.unfinishedMessageSize = 0 then startNewMessage ex st bytes offset
  else continueUnfinishedMessage ex st bytes offset

/-- The `while (offset < bytes.length)` loop of `parseBytes`, with explicit
fuel; `none` means the fuel was exhausted before the loop exited (the JS
loop runs forever on such inputs). A negative `bytesParsed` sets the
shutdown latch and aborts with `false`, discarding the rest of the chunk. -/
def parseBytesLoop (ex : HeaderExtractor) :
    Nat → ParserState → List Nat → Int → Option (ParserState × Bool × List Notif)
  | 0, _, _, _ => none
  | fuel + 1, st, bytes, offset =>
    if offset < (bytes.length : Int) then
      let r := stepFn ex st bytes offset
      if r.2.1 < 0 then
        some ({ r.1 with bShutdown := true }, false, r.2.2)
      else
        match parseBytesLoop ex fuel r.1 bytes (offset + r.2.1) with
        | none => none
        | some (stFin, ok, ns) => some (stFin, ok, r.2.2 ++ ns)
    else
      some (st, true, [])

/-- Source `parseBytes(bytes)`: rejects immediately when shut down, else
drains the chunk from offset 0. -/
def parseBytes (ex : HeaderExtractor) (fuel : Nat) (st : ParserState)
    (bytes : List Nat) : Option (ParserState × Bool × List Notif) :=
  if st.bShutdown then some (st, false, []) else parseBytesLoop ex fuel st bytes 0

/-- Feed a sequence of chunks with successive `parseBytes` calls,
concatenating the delivered notifications in order. -/
def feedAll (ex : HeaderExtractor) (fuel : Nat) :
    ParserState → List (List Nat) → Option (ParserState × List Notif)
  | st, [] => some (st, [])
  | st, c :: cs =>
    match parseBytes ex fuel st c with
    | none => none
    | some (st1, _, ns) =>
      match feedAll ex fuel st1 cs with
      | none => none
      | some (st2, ns2) => some (st2, ns ++ ns2)

/-- The constructor's view of the caller-supplied extractor object before
member checks: `none` models a member that is absent or has the wrong
`typeof` (a non-number `headerByteCount`, a non-function method). -/
structure RawHeaderExtractor where
  headerByteCount : Option Int
  extractMessageSize : Option (List Nat → Int)
  validateMessageSize : Option (Int → Bool)

/-- The two synchronous construction failures. -/
inductive CtorError where
  | typeError
  | rangeError
deriving Repr, DecidableEq

/-- Source constructor. Mutation of the caller's extractor object (the
default-validator install on line 36) is embedded by explicit state
passing: the returned `RawHeaderExtractor` is that same heap object as the
caller sees it after construction. The returned `HeaderExtractor` is the
resolved strategy the assembler methods use, and the returned `ParserState`
carries the freshly allocated zero-filled carry buffer. A missing
`initialBufferSize` (non-number in JS) falls back to 10240. -/
def mkParser (raw : RawHeaderExtractor) (initialBufferSize : Option Int) :
    Except CtorError (RawHeaderExtractor × HeaderExtractor × ParserState) :=
  match raw.headerByteCount, raw.extractMessageSize with
  | some hbc, some extract =>
    let raw1 : RawHeaderExtractor :=
      match raw.validateMessageSize with
      | some v => { raw with validateMessageSize := some v }
      | none => { raw with validateMessageSize := some (fun _ => true) }
    let ibs : Int :=
      match initialBufferSize with
      | some n => n
      | none => 10240
    if ibs ≤ 0 then Except.error CtorError.rangeError
    else
      Except.ok (raw1,
        { headerByteCount := hbc.toNat
          extractMessageSize := extract
          validateMessageSize := (raw1.validateMessageSize).getD (fun _ => true) },
        { unfinishedMessageBuffer := List.replicate ibs.toNat 0
          unfinishedMessageSize := 0
          expectedMessageSize := 0
          bMessageHeaderExtracted := false
          bShutdown := false })
  | _, _ => Except.error CtorError.typeError

/-- A byte sequence is a valid message for extractor `ex` when it is long
enough to contain its header, its header declares exactly its own total
length, and that length passes validation. -/
def ValidMsg (ex : HeaderExtractor) (M : List Nat) : Prop :=
  ex.headerByteCount ≤ M.length ∧
  ex.extractMessageSize (M.take ex.headerByteCount) = (M.length : Int) ∧
  ex.validateMessageSize (M.length : Int) = true

instance (ex : HeaderExtractor) (M : List Nat) : Decidable (ValidMsg ex M) := by
  unfold ValidMsg; infer_instance

/-- The assembler is idle: no carry bytes and fully reset header state
(this is the state right after construction and after every completed
message). -/
def Idle (st : ParserState) : Prop :=
  st.unfinishedMessageSize = 0 ∧ st.expectedMessageSize = 0 ∧
  st.bMessageHeaderExtracted = false

instance (st : ParserState) : Decidable (Idle st) := by
  unfold Idle; infer_instance

/-- Carry-state sanity: whenever header bytes are still being collected, the
carry holds fewer than `headerByteCount` bytes and the expected size is the
header-byte-count placeholder. This holds after construction and is
preserved by `parseBytes` (proved below); it is the shape of every
reachable state. -/
def SaneCarry (ex : HeaderExtractor) (st : ParserState) : Prop :=
  st.bMessageHeaderExtracted = false → st.unfinishedMessageSize ≠ 0 →
    st.unfinishedMessageSize < ex.headerByteCount ∧
    st.expectedMessageSize = (ex.headerByteCount : Int)

instance (ex : HeaderExtractor) (st : ParserState) : Decidable (SaneCarry ex st) := by
  unfold SaneCarry; infer_instance

/-- Spec-side decoder: the unsigned big-endian integer formed by the first
`w` bytes (base-256, most significant byte first). -/
def specSizeUIntBE (w : Nat) (l : List Nat) : Int :=
  ((l.take w).foldl (fun a b => a * 256 + b) 0 : Nat)

/-- Spec-side decoder: the unsigned little-endian integer formed by the
first `w` bytes (base-256, least significant byte first). -/
def specSizeUIntLE (w : Nat) (l : List Nat) : Int :=
  ((l.take w).reverse.foldl (fun a b => a * 256 + b) 0 : Nat)

/-- Spec-side decoder: the signed (two's-complement) big-endian integer
formed by the first `w` bytes. -/
def specSizeIntBE (w : Nat) (l : List Nat) : Int :=
  toSigned (8 * w) ((l.take w).foldl (fun a b => a * 256 + b) 0)

/-- Spec-side decoder: the signed (two's-complement) little-endian integer
formed by the first `w` bytes. -/
def specSizeIntLE (w : Nat) (l : List Nat) : Int :=
  toSigned (8 * w) ((l.take w).reverse.foldl (fun a b => a * 256 + b) 0)

/-- An extractor supplied without a `validateMessageSize` member, as the
constructor receives it. -/
def rawInt32NoValidator : RawHeaderExtractor :=
  { headerByteCount := some 4
    extractMessageSize := some readInt32BE
    validateMessageSize := none }

/-- The validator actually used by an assembler constructed from
`rawInt32NoValidator` (header width 4). -/
def installedDefaultValidator : Int → Bool := fun s =>
  match mkParser rawInt32NoValidator (some 4) with
  | Except.ok r => r.2.1.validateMessageSize s
  | Except.error _ => false

/-- An extractor whose (default-style, always-true) validator accepts the
extracted size 0: the divergence scenario of the drain loop. -/
def zeroSizeExtractor : HeaderExtractor :=
  { headerByteCount := 1
    extractMessageSize := fun _ => 0
    validateMessageSize := fun _ => true }

lemma reset_of_idle (st : ParserState) (h : Idle st) : reset st = st := by
  obtain ⟨h1, h2, h3⟩ := h
  cases st
  simp_all [reset]

lemma parseBytesLoop_exit (ex : HeaderExtractor) (fuel : Nat) (st : ParserState)
    (bytes : List Nat) (offset : Int) (h : ¬ offset < (bytes.length : Int)) :
    parseBytesLoop ex (fuel + 1) st bytes offset = some (st, true, []) := by
  simp [parseBytesLoop, h]

lemma parseBytesLoop_step (ex : HeaderExtractor) (fuel : Nat) (st st1 : ParserState)
    (bytes : List Nat) (offset p : Int) (ns : List Notif)
    (h : offset < (bytes.length : Int))
    (hstep : stepFn ex st bytes offset = (st1, p, ns)) (hp : ¬ p < 0) :
    parseBytesLoop ex (fuel + 1) st bytes offset
      = match parseBytesLoop ex fuel st1 bytes (offset + p) with
        | none => none
        | some (stF, ok, ns2) => some (stF, ok, ns ++ ns2) := by
  simp [parseBytesLoop, h, hstep, hp]

lemma parseBytesLoop_failStep (ex : HeaderExtractor) (fuel : Nat) (st st1 : ParserState)
    (bytes : List Nat) (offset p : Int) (ns : List Notif)
    (h : offset < (bytes.length : Int))
    (hstep : stepFn ex st bytes offset = (st1, p, ns)) (hp : p < 0) :
    parseBytesLoop ex (fuel + 1) st bytes offset
      = some ({ st1 with bShutdown := true }, false, ns) := by
  simp [parseBytesLoop, h, hstep, hp]

lemma jsSlice_append (pre tail : List Nat) (k : Nat) (hk : k ≤ tail.length) :
    jsSlice (pre ++ tail) (pre.length : Int) ((pre.length : Int) + (k : Int))
      = tail.take k := by
  unfold jsSlice sliceIndex
  have h1 : ¬ ((pre.length : Int) < 0) := by omega
  have h2 : ¬ ((pre.length : Int) + (k : Int) < 0) := by omega
  rw [if_neg h2, if_neg h1]
  have h3 : ((pre.length : Int) + (k : Int)).toNat = pre.length + k := by omega
  have h4 : ((pre.length : Int)).toNat = pre.length := by omega
  rw [h3, h4]
  have h5 : min (pre.length + k) (pre ++ tail).length = pre.length + k := by
    simp [List.length_append]; omega
  have h6 : min pre.length (pre ++ tail).length = pre.length := by
    simp [List.length_append]
  rw [h5, h6]
  rw [List.take_append_eq_append_take]
  have h7 : pre.take (pre.length + k) = pre := List.take_of_length_le (by omega)
  rw [h7]
  have h8 : pre.length + k - pre.length = k := by omega
  rw [h8]
  exact List.drop_left pre (tail.take k)

lemma jsCopy_replicate (src : List Nat) (n : Nat) (a b : Int)
    (h : (jsSlice src a b).length = n) :
    jsCopy src (List.replicate n 0) 0 a b = jsSlice src a b := by
  unfold jsCopy
  simp only [List.length_replicate, Nat.sub_zero, List.take_zero, List.nil_append,
    Nat.zero_add]
  rw [List.take_of_length_le (by omega)]
  rw [List.drop_eq_nil_of_le (by simp [h]), List.append_nil]

lemma step_whole_message (ex : HeaderExtractor) (st : ParserState) (pre M rest : List Nat)
    (hidle : Idle st) (hM : ValidMsg ex M) :
    stepFn ex st (pre ++ (M ++ rest)) (pre.length : Int)
      = (st, (M.length : Int), [Notif.message M]) := by
  obtain ⟨hlen, hext, hval⟩ := hM
  have hbytes : ((pre ++ (M ++ rest)).length : Int)
      = (pre.length : Int) + (M.length : Int) + (rest.length : Int) := by
    simp [List.length_append]; omega
  have hslice : jsSlice (pre ++ (M ++ rest)) (pre.length : Int)
      ((pre.length : Int) + (ex.headerByteCount : Int)) = M.take ex.headerByteCount := by
    rw [jsSlice_append pre (M ++ rest) ex.headerByteCount
      (by simp [List.length_append]; omega)]
    exact List.take_append_of_le_length hlen
  have hsliceM : jsSlice (pre ++ (M ++ rest)) (pre.length : Int)
      ((pre.length : Int) + (M.length : Int)) = M := by
    rw [jsSlice_append pre (M ++ rest) M.length (by simp [List.length_append])]
    rw [List.take_append_of_le_length (le_refl M.length), List.take_length]
  unfold stepFn
  rw [if_pos hidle.1]
  unfold startNewMessage
  rw [hbytes]
  have hno : ¬ ((pre.length : Int) + (M.length : Int) + (rest.length : Int)
      - (pre.length : Int) < (ex.headerByteCount : Int)) := by omega
  rw [if_neg hno]
  have hextract : extractMessageSizeAt ex (pre ++ (M ++ rest)) (pre.length : Int)
      = (M.length : Int) := by
    unfold extractMessageSizeAt
    rw [hslice, hext]
  rw [hextract]
  rw [if_neg (by simp [hval])]
  rw [if_pos (by omega)]
  unfold notifyMessageReceived
  rw [reset_of_idle st hidle]
  have hmsg : jsCopy (pre ++ (M ++ rest)) (List.replicate ((M.length : Int)).toNat 0) 0
      (pre.length : Int) ((pre.length : Int) + (M.length : Int)) = M := by
    have ht : ((M.length : Int)).toNat = M.length := by omega
    rw [ht, jsCopy_replicate _ _ _ _ (by rw [hsliceM]), hsliceM]
  rw [hmsg]

lemma drain_loop (ex : HeaderExtractor) (hhbc : 0 < ex.headerByteCount)
    (msgs : List (List Nat)) :
    ∀ (pre : List Nat) (st : ParserState), Idle st →
      (∀ M ∈ msgs, ValidMsg ex M) →
      parseBytesLoop ex (msgs.length + 1) st (pre ++ msgs.flatten) (pre.length : Int)
        = some (st, true, msgs.map Notif.message) := by
  induction msgs with
  | nil =>
    intro pre st hidle _
    apply parseBytesLoop_exit
    simp
  | cons M msgs ih =>
    intro pre st hidle hv
    have hM : ValidMsg ex M := hv M (List.mem_cons_self M msgs)
    have hMlen : 0 < M.length := lt_of_lt_of_le hhbc hM.1
    have hflat : (M :: msgs).flatten = M ++ msgs.flatten := by simp
    rw [hflat]
    have hoff : (pre.length : Int) < ((pre ++ (M ++ msgs.flatten)).length : Int) := by
      have hl : (pre ++ (M ++ msgs.flatten)).length
          = pre.length + (M.length + msgs.flatten.length) := by
        simp only [List.length_append]
      rw [hl]; push_cast; omega
    have hstep := step_whole_message ex st pre M msgs.flatten hidle hM
    have hfuel : (M :: msgs).length + 1 = (msgs.length + 1) + 1 := by simp
    rw [hfuel]
    rw [parseBytesLoop_step ex (msgs.length + 1) st st (pre ++ (M ++ msgs.flatten))
      (pre.length : Int) (M.length : Int) [Notif.message M] hoff hstep (by omega)]
    have hassoc : pre ++ (M ++ msgs.flatten) = (pre ++ M) ++ msgs.flatten := by
      rw [List.append_assoc]
    have hoff2 : (pre.length : Int) + (M.length : Int) = ((pre ++ M).length : Int) := by
      simp [List.length_append]
    rw [hassoc, hoff2]
    rw [ih (pre ++ M) st hidle (fun N hN => hv N (List.mem_cons_of_mem M hN))]
    simp

/-- C1: chunk-boundary independence FAILS on the code. The 4-byte stream
`[0,0,0,4]` is a valid message for the standard Int32BE extractor (its
header declares total length 4 and the default validator accepts 4 ≥ 4),
and fed as one chunk it is emitted; but fed as the two non-empty chunks
`[0,0]`, `[0,4]` the run produces ZERO message notifications — the header
is completed through the carry path, `_continueUnfinishedMessage` returns
without noticing that the message needs no further body bytes, and the
fully received message is left pending in the carry buffer. -/
theorem chunk_boundary_independence_fails :
    ValidMsg HeaderExtractorInt32BE [0, 0, 0, 4] ∧
    ([[0, 0], [0, 4]] : List (List Nat)).flatten = [0, 0, 0, 4] ∧
    parseBytes HeaderExtractorInt32BE 8 ⟨List.replicate 8 0, 0, 0, false, false⟩
        [0, 0, 0, 4]
      = some (⟨List.replicate 8 0, 0, 0, false, false⟩, true,
          [Notif.message [0, 0, 0, 4]]) ∧
    feedAll HeaderExtractorInt32BE 8 ⟨List.replicate 8 0, 0, 0, false, false⟩
        [[0, 0], [0, 4]]
      = some (⟨[0, 0, 0, 4, 0, 0, 0, 0], 4, 4, true, false⟩, []) := by
  decide

/-- C2: feeding a concatenation of valid messages to a single `parseBytes`
call on an idle, non-shut-down assembler yields exactly one `message`
notification per message, carrying exactly that message's bytes, in stream
order, and returns `true` with the assembler idle again. -/
theorem concatenated_stream_yields_messages_in_order (ex : HeaderExtractor)
    (msgs : List (List Nat)) (st : ParserState)
    (hhbc : 0 < ex.headerByteCount) (hv : ∀ M ∈ msgs, ValidMsg ex M)
    (hidle : Idle st) (hsd : st.bShutdown = false) :
    parseBytes ex (msgs.length + 1) st msgs.flatten
      = some (st, true, msgs.map Notif.message) := by
  unfold parseBytes
  rw [hsd]
  have := drain_loop ex hhbc msgs [] st hidle hv
  simpa using this

/-- Witness for C2: the README's example stream, two Int32BE messages of 8
bytes each in a single chunk, yields exactly those two messages in order. -/
theorem concatenated_stream_yields_messages_in_order_witness :
    parseBytes HeaderExtractorInt32BE 3 ⟨List.replicate 8 0, 0, 0, false, false⟩
        [0, 0, 0, 8, 0, 0, 0, 5, 0, 0, 0, 8, 0, 1, 0, 0]
      = some (⟨List.replicate 8 0, 0, 0, false, false⟩, true,
          [Notif.message [0, 0, 0, 8, 0, 0, 0, 5],
           Notif.message [0, 0, 0, 8, 0, 1, 0, 0]]) := by
  have := concatenated_stream_yields_messages_in_order HeaderExtractorInt32BE
    [[0, 0, 0, 8, 0, 0, 0, 5], [0, 0, 0, 8, 0, 1, 0, 0]]
    ⟨List.replicate 8 0, 0, 0, false, false⟩
    (by decide) (by decide) (by decide) rfl
  simpa using this

/-- C4: once the shutdown latch is set, `parseBytes` returns `false` for
every input whatsoever, leaves the state bit-for-bit unchanged, and
delivers no notification; since `parseBytes` is the only state-mutating
operation, no operation leaves the shutdown state. -/
theorem shutdown_is_permanent (ex : HeaderExtractor) (fuel : Nat)
    (st : ParserState) (bytes : List Nat) (h : st.bShutdown = true) :
    parseBytes ex fuel st bytes = some (st, false, []) := by
  simp [parseBytes, h]

/-- Witness for C4: a concrete shut-down assembler rejects a valid message
chunk without any state change or notification. -/
theorem shutdown_is_permanent_witness :
    parseBytes HeaderExtractorInt32BE 8 ⟨[0, 0], 0, 0, false, true⟩ [0, 0, 0, 4]
      = some (⟨[0, 0], 0, 0, false, true⟩, false, []) :=
  shutdown_is_permanent HeaderExtractorInt32BE 8 ⟨[0, 0], 0, 0, false, true⟩
    [0, 0, 0, 4] rfl

/-- C6: the growth arithmetic is exact but the claim fails overall. With
initial capacity 2 and the valid 4-byte Int32BE message `[0,0,0,4]` split
across chunks, the reallocation sizes the buffer to exactly carried (2)
plus appended (2) bytes — the final state's buffer has length 4 — yet the
claimed emission never happens: the run delivers no `message` notification
at all (same root cause as the C1 failure). -/
theorem buffer_growth_exact_but_no_emit :
    ValidMsg HeaderExtractorInt32BE [0, 0, 0, 4] ∧
    feedAll HeaderExtractorInt32BE 8 ⟨[0, 0], 0, 0, false, false⟩ [[0, 0], [0, 4]]
      = some (⟨[0, 0, 0, 4], 4, 4, true, false⟩, []) := by
  decide


/-- C3 counterexample: the claim says the validator installed for an
extractor lacking `validateMessageSize` accepts a size s iff
s ≥ headerByteCount. For header width 4 and s = 0 the installed validator
answers `true` although 0 < 4, so the stated equivalence is false. -/
theorem default_validator_not_headerBound :
    ¬ (installedDefaultValidator 0 = true ↔ (4 : Int) ≤ 0) := by decide

/-- C3 as amended: when the supplied extractor has no `validateMessageSize`
function, the constructor installs `() => true`, so the validator the
assembler actually uses accepts EVERY size (it does not enforce
s ≥ headerByteCount). -/
theorem default_validator_accepts_every_size (hbc : Int) (f : List Nat → Int)
    (sz : Option Int) (raw1 : RawHeaderExtractor) (ex : HeaderExtractor)
    (st : ParserState)
    (h : mkParser ⟨some hbc, some f, none⟩ sz = Except.ok (raw1, ex, st)) (s : Int) :
    ex.validateMessageSize s = true := by
  unfold mkParser at h
  dsimp only at h
  split at h
  · exact absurd h (by simp)
  · simp only [Except.ok.injEq, Prod.mk.injEq] at h
    obtain ⟨h1, h2, h3⟩ := h
    rw [← h2]
    rfl

/-- C9: the constructor mutates the caller-supplied extractor object when it
lacks `validateMessageSize`: the object it hands back (the same heap object,
embedded via explicit state passing) now carries an installed always-true
`validateMessageSize` member while its other members are untouched, and any
assembler later constructed from that same object uses the installed
member. -/
theorem constructor_mutates_extractor_object (hbc : Int) (f : List Nat → Int)
    (sz : Option Int) (raw1 : RawHeaderExtractor) (ex : HeaderExtractor)
    (st : ParserState)
    (h : mkParser ⟨some hbc, some f, none⟩ sz = Except.ok (raw1, ex, st)) :
    raw1.headerByteCount = some hbc ∧ raw1.extractMessageSize = some f ∧
    (∃ v, raw1.validateMessageSize = some v ∧ ∀ s, v s = true) ∧
    (∀ raw2 ex2 st2, mkParser raw1 sz = Except.ok (raw2, ex2, st2) →
      ∀ s, ex2.validateMessageSize s = true) := by
  unfold mkParser at h
  dsimp only at h
  split at h
  · exact absurd h (by simp)
  · rename_i hibs
    simp only [Except.ok.injEq, Prod.mk.injEq] at h
    obtain ⟨h1, h2, h3⟩ := h
    subst h1
    refine ⟨rfl, rfl, ⟨fun _ => true, rfl, fun s => rfl⟩, ?_⟩
    intro raw2 ex2 st2 hmk s
    unfold mkParser at hmk
    dsimp only at hmk
    rw [if_neg hibs] at hmk
    simp only [Except.ok.injEq, Prod.mk.injEq] at hmk
    obtain ⟨g1, g2, g3⟩ := hmk
    rw [← g2]
    rfl

/-- C8: construction fails synchronously exactly when the extractor lacks a
numeric `headerByteCount` or a callable `extractMessageSize`, or a supplied
numeric `initialBufferSize` is ≤ 0 (an unsupplied size defaults to 10240);
and every successful construction yields an idle, non-shut-down
assembler. -/
theorem construction_contract (raw : RawHeaderExtractor) (sz : Option Int) :
    ((∃ e, mkParser raw sz = Except.error e) ↔
      raw.headerByteCount = none ∨ raw.extractMessageSize = none ∨
      ∃ n, sz = some n ∧ n ≤ 0) ∧
    (∀ raw1 ex st, mkParser raw sz = Except.ok (raw1, ex, st) →
      Idle st ∧ st.bShutdown = false) := by
  obtain ⟨ohbc, oext, oval⟩ := raw
  cases ohbc with
  | none =>
    refine ⟨by simp [mkParser], fun raw1 ex st h => by simp [mkParser] at h⟩
  | some hbc =>
    cases oext with
    | none =>
      refine ⟨by simp [mkParser], fun raw1 ex st h => by simp [mkParser] at h⟩
    | some f =>
      cases sz with
      | none =>
        constructor
        · simp only [mkParser]
          rw [if_neg (by norm_num)]
          refine iff_of_false ?_ ?_
          · rintro ⟨e, he⟩
            exact Except.noConfusion he
          · rintro (h | h | ⟨n, hn, _⟩)
            · exact Option.noConfusion h
            · exact Option.noConfusion h
            · exact Option.noConfusion hn
        · intro raw1 ex st h
          unfold mkParser at h
          dsimp only at h
          rw [if_neg (by norm_num)] at h
          simp only [Except.ok.injEq, Prod.mk.injEq] at h
          obtain ⟨h1, h2, h3⟩ := h
          rw [← h3]
          exact ⟨⟨rfl, rfl, rfl⟩, rfl⟩
      | some n =>
        by_cases hn : n ≤ 0
        · constructor
          · simp only [mkParser]
            rw [if_pos hn]
            simp [hn]
          · intro raw1 ex st h
            unfold mkParser at h
            dsimp only at h
            rw [if_pos hn] at h
            exact absurd h (by simp)
        · constructor
          · simp only [mkParser]
            rw [if_neg hn]
            simp [hn]
          · intro raw1 ex st h
            unfold mkParser at h
            dsimp only at h
            rw [if_neg hn] at h
            simp only [Except.ok.injEq, Prod.mk.injEq] at h
            obtain ⟨h1, h2, h3⟩ := h
            rw [← h3]
            exact ⟨⟨rfl, rfl, rfl⟩, rfl⟩

/-- Witness for C8: constructing from a well-formed extractor with buffer
size 4 succeeds and the resulting assembler is idle and not shut down. -/
theorem construction_contract_witness :
    Idle (⟨List.replicate 4 0, 0, 0, false, false⟩ : ParserState) ∧
    (⟨List.replicate 4 0, 0, 0, false, false⟩ : ParserState).bShutdown = false :=
  (construction_contract ⟨some 4, some readInt32BE, none⟩ (some 4)).2
    ⟨some 4, some readInt32BE, some fun _ => true⟩
    ⟨(4 : Int).toNat, readInt32BE, (some fun _ => true).getD fun _ => true⟩
    ⟨List.replicate 4 0, 0, 0, false, false⟩ rfl

/-- Witness for the amended C3: the concrete assembler built from
`⟨some 4, some readInt32BE, none⟩` uses a validator that accepts size 0. -/
theorem default_validator_accepts_every_size_witness :
    (⟨(4 : Int).toNat, readInt32BE,
        (some fun _ => true).getD fun _ => true⟩ : HeaderExtractor).validateMessageSize 0
      = true :=
  default_validator_accepts_every_size 4 readInt32BE (some 4)
    ⟨some 4, some readInt32BE, some fun _ => true⟩
    ⟨(4 : Int).toNat, readInt32BE, (some fun _ => true).getD fun _ => true⟩
    ⟨List.replicate 4 0, 0, 0, false, false⟩ rfl 0

/-- Witness for C9: rebuilding from the returned (mutated) extractor object
yields an assembler whose validator accepts size 7. -/
theorem constructor_mutates_extractor_object_witness :
    (⟨(4 : Int).toNat, readInt32BE,
        (some fun _ => true).getD fun _ => true⟩ : HeaderExtractor).validateMessageSize 7
      = true :=
  (constructor_mutates_extractor_object 4 readInt32BE (some 4)
    ⟨some 4, some readInt32BE, some fun _ => true⟩
    ⟨(4 : Int).toNat, readInt32BE, (some fun _ => true).getD fun _ => true⟩
    ⟨List.replicate 4 0, 0, 0, false, false⟩ rfl).2.2.2
    ⟨some 4, some readInt32BE, some fun _ => true⟩
    ⟨(4 : Int).toNat, readInt32BE, (some fun _ => true).getD fun _ => true⟩
    ⟨List.replicate 4 0, 0, 0, false, false⟩ rfl 7

lemma stepFn_notifs (ex : HeaderExtractor) (st : ParserState) (bytes : List Nat)
    (offset : Int) (st1 : ParserState) (p : Int) (ns : List Notif)
    (h : stepFn ex st bytes offset = (st1, p, ns)) :
    (∃ ms : List (List Nat), ns = ms.map Notif.message) ∨
    (p < 0 ∧ ∃ s, ns = [Notif.error s] ∧ ex.validateMessageSize s = false) := by
  unfold stepFn at h
  split at h
  · unfold startNewMessage at h
    dsimp only at h
    split at h
    · simp only [Prod.mk.injEq] at h
      exact Or.inl ⟨[], h.2.2.symm⟩
    · split at h
      · rename_i hval
        simp only [Prod.mk.injEq] at h
        obtain ⟨-, hp, hn⟩ := h
        exact Or.inr ⟨by omega, extractMessageSizeAt ex bytes offset, hn.symm,
          by simpa using hval⟩
      · split at h
        · simp only [Prod.mk.injEq] at h
          exact Or.inl ⟨[_], h.2.2.symm⟩
        · simp only [Prod.mk.injEq] at h
          exact Or.inl ⟨[], h.2.2.symm⟩
  · unfold continueUnfinishedMessage at h
    dsimp only at h
    split at h
    · simp only [Prod.mk.injEq] at h
      exact Or.inl ⟨[], h.2.2.symm⟩
    · split at h
      · simp only [Prod.mk.injEq] at h
        exact Or.inl ⟨[_], h.2.2.symm⟩
      · split at h
        · rename_i hval
          simp only [Prod.mk.injEq] at h
          obtain ⟨-, hp, hn⟩ := h
          exact Or.inr ⟨by omega, _, hn.symm, by simpa using hval⟩
        · simp only [Prod.mk.injEq] at h
          exact Or.inl ⟨[], h.2.2.symm⟩

lemma parseBytesLoop_notifs (ex : HeaderExtractor) :
    ∀ (fuel : Nat) (st : ParserState) (bytes : List Nat) (offset : Int)
      (stF : ParserState) (ok : Bool) (ns : List Notif),
      parseBytesLoop ex fuel st bytes offset = some (stF, ok, ns) →
      (∃ ms : List (List Nat), ns = ms.map Notif.message) ∨
      (ok = false ∧ stF.bShutdown = true ∧
        ∃ (ms : List (List Nat)) (s : Int),
          ns = ms.map Notif.message ++ [Notif.error s] ∧
          ex.validateMessageSize s = false) := by
  intro fuel
  induction fuel with
  | zero => intro st bytes offset stF ok ns h; exact absurd h (by simp [parseBytesLoop])
  | succ n ih =>
    intro st bytes offset stF ok ns h
    by_cases hoff : offset < (bytes.length : Int)
    · rcases hstep : stepFn ex st bytes offset with ⟨stA, p, ns1⟩
      by_cases hp : p < 0
      · rw [parseBytesLoop_failStep ex n st stA bytes offset p ns1 hoff hstep hp] at h
        simp only [Option.some.injEq, Prod.mk.injEq] at h
        obtain ⟨hSt, hOk, hNs⟩ := h
        rcases stepFn_notifs ex st bytes offset stA p ns1 hstep with ⟨ms, hms⟩ | ⟨-, s, hs, hvs⟩
        · exact Or.inl ⟨ms, by rw [← hNs, hms]⟩
        · refine Or.inr ⟨hOk.symm, by rw [← hSt], [], s, ?_, hvs⟩
          rw [← hNs, hs]
          simp
      · rw [parseBytesLoop_step ex n st stA bytes offset p ns1 hoff hstep hp] at h
        rcases hrec : parseBytesLoop ex n stA bytes (offset + p) with - | ⟨stB, okB, nsB⟩
        · rw [hrec] at h
          exact absurd h (by simp)
        · rw [hrec] at h
          simp only [Option.some.injEq, Prod.mk.injEq] at h
          obtain ⟨hSt, hOk, hNs⟩ := h
          rcases stepFn_notifs ex st bytes offset stA p ns1 hstep with ⟨ms1, hms1⟩
            | ⟨hneg, -⟩
          · rcases ih stA bytes (offset + p) stB okB nsB hrec with ⟨ms2, hms2⟩
              | ⟨hOkB, hSd, ms2, s, hns2, hvs⟩
            · refine Or.inl ⟨ms1 ++ ms2, ?_⟩
              rw [← hNs, hms1, hms2, List.map_append]
            · refine Or.inr ⟨by rw [← hOk, hOkB], by rw [← hSt, hSd], ms1 ++ ms2, s, ?_, hvs⟩
              rw [← hNs, hms1, hns2, List.map_append, List.append_assoc]
          · exact absurd hneg hp
    · rw [parseBytesLoop_exit ex n st bytes offset hoff] at h
      simp only [Option.some.injEq, Prod.mk.injEq] at h
      exact Or.inl ⟨[], by simpa using h.2.2.symm⟩

/-- C5: whenever a run of `parseBytes` on a not-yet-shut-down assembler
signals an invalid-size `error` notification, the call returns `false`, the
assembler transitions to shutdown, the error is the single LAST
notification of the call (so no message is emitted from the bytes after
the failing header), and its context carries exactly the rejected size,
which the extractor's validator indeed rejects. -/
theorem validation_failure_shuts_down (ex : HeaderExtractor) (fuel : Nat)
    (st stF : ParserState) (bytes : List Nat) (ok : Bool) (ns : List Notif)
    (hsd : st.bShutdown = false)
    (hrun : parseBytes ex fuel st bytes = some (stF, ok, ns))
    (s0 : Int) (herr : Notif.error s0 ∈ ns) :
    ok = false ∧ stF.bShutdown = true ∧
    ex.validateMessageSize s0 = false ∧
    ∃ ms : List (List Nat), ns = ms.map Notif.message ++ [Notif.error s0] := by
  unfold parseBytes at hrun
  rw [hsd] at hrun
  simp only [Bool.false_eq_true, if_false] at hrun
  rcases parseBytesLoop_notifs ex fuel st bytes 0 stF ok ns hrun with ⟨ms, hms⟩
    | ⟨hOk, hSd, ms, s, hns, hvs⟩
  · subst hms
    obtain ⟨m, -, hcontra⟩ := List.mem_map.mp herr
    exact absurd hcontra (by simp)
  · have hs0 : s0 = s := by
      subst hns
      rcases List.mem_append.mp herr with hin | hin
      · obtain ⟨m, -, hcontra⟩ := List.mem_map.mp hin
        exact absurd hcontra (by simp)
      · simpa using hin
    subst hs0
    exact ⟨hOk, hSd, hvs, ms, hns⟩

/-- Witness for C5: the mocha shutdown test — Int32BE header declaring
size 1 (< 4). The call returns `false`, the error context carries size 1,
the assembler is shut down, and the error is the only notification. -/
theorem validation_failure_shuts_down_witness :
    false = false ∧
    (⟨List.replicate 8 0, 0, 0, false, true⟩ : ParserState).bShutdown = true ∧
    HeaderExtractorInt32BE.validateMessageSize 1 = false ∧
    ∃ ms : List (List Nat),
      [Notif.error 1] = ms.map Notif.message ++ [Notif.error 1] :=
  validation_failure_shuts_down HeaderExtractorInt32BE 8
    ⟨List.replicate 8 0, 0, 0, false, false⟩
    ⟨List.replicate 8 0, 0, 0, false, true⟩
    [0, 0, 0, 1] false [Notif.error 1] rfl (by decide) 1 (by decide)

lemma beNat_two (a b : Nat) (t : List Nat) :
    ((a :: b :: t).take 2).foldl (fun x y => x * 256 + y) 0 = a * 256 + b := by
  simp [List.take, List.foldl]

lemma beNat_two_rev (a b : Nat) (t : List Nat) :
    (((a :: b :: t).take 2).reverse).foldl (fun x y => x * 256 + y) 0 = b * 256 + a := by
  simp [List.take, List.foldl]

lemma beNat_four (a b c d : Nat) (t : List Nat) :
    ((a :: b :: c :: d :: t).take 4).foldl (fun x y => x * 256 + y) 0
      = ((a * 256 + b) * 256 + c) * 256 + d := by
  simp [List.take, List.foldl]

lemma beNat_four_rev (a b c d : Nat) (t : List Nat) :
    (((a :: b :: c :: d :: t).take 4).reverse).foldl (fun x y => x * 256 + y) 0
      = ((d * 256 + c) * 256 + b) * 256 + a := by
  simp [List.take, List.foldl]

/-- C7: each of the ten standard extractors has `headerByteCount` equal to
its named width; on any header of at least that width its
`extractMessageSize` returns exactly the named fixed-width integer (named
signedness and byte order, two's complement for the signed ones) decoded
from the first `headerByteCount` bytes; and its validator accepts a size s
iff s ≥ headerByteCount. -/
theorem standard_extractor_catalog :
    (HeaderExtractorInt8.headerByteCount = 1 ∧
     HeaderExtractorUInt8.headerByteCount = 1 ∧
     HeaderExtractorInt16BE.headerByteCount = 2 ∧
     HeaderExtractorUInt16BE.headerByteCount = 2 ∧
     HeaderExtractorInt16LE.headerByteCount = 2 ∧
     HeaderExtractorUInt16LE.headerByteCount = 2 ∧
     HeaderExtractorInt32BE.headerByteCount = 4 ∧
     HeaderExtractorUInt32BE.headerByteCount = 4 ∧
     HeaderExtractorInt32LE.headerByteCount = 4 ∧
     HeaderExtractorUInt32LE.headerByteCount = 4) ∧
    (∀ l : List Nat, 1 ≤ l.length →
      HeaderExtractorInt8.extractMessageSize l = specSizeIntBE 1 l ∧
      HeaderExtractorUInt8.extractMessageSize l = specSizeUIntBE 1 l) ∧
    (∀ l : List Nat, 2 ≤ l.length →
      HeaderExtractorInt16BE.extractMessageSize l = specSizeIntBE 2 l ∧
      HeaderExtractorUInt16BE.extractMessageSize l = specSizeUIntBE 2 l ∧
      HeaderExtractorInt16LE.extractMessageSize l = specSizeIntLE 2 l ∧
      HeaderExtractorUInt16LE.extractMessageSize l = specSizeUIntLE 2 l) ∧
    (∀ l : List Nat, 4 ≤ l.length →
      HeaderExtractorInt32BE.extractMessageSize l = specSizeIntBE 4 l ∧
      HeaderExtractorUInt32BE.extractMessageSize l = specSizeUIntBE 4 l ∧
      HeaderExtractorInt32LE.extractMessageSize l = specSizeIntLE 4 l ∧
      HeaderExtractorUInt32LE.extractMessageSize l = specSizeUIntLE 4 l) ∧
    (∀ s : Int,
      (HeaderExtractorInt8.validateMessageSize s = true ↔ 1 ≤ s) ∧
      (HeaderExtractorUInt8.validateMessageSize s = true ↔ 1 ≤ s) ∧
      (HeaderExtractorInt16BE.validateMessageSize s = true ↔ 2 ≤ s) ∧
      (HeaderExtractorUInt16BE.validateMessageSize s = true ↔ 2 ≤ s) ∧
      (HeaderExtractorInt16LE.validateMessageSize s = true ↔ 2 ≤ s) ∧
      (HeaderExtractorUInt16LE.validateMessageSize s = true ↔ 2 ≤ s) ∧
      (HeaderExtractorInt32BE.validateMessageSize s = true ↔ 4 ≤ s) ∧
      (HeaderExtractorUInt32BE.validateMessageSize s = true ↔ 4 ≤ s) ∧
      (HeaderExtractorInt32LE.validateMessageSize s = true ↔ 4 ≤ s) ∧
      (HeaderExtractorUInt32LE.validateMessageSize s = true ↔ 4 ≤ s)) := by
  refine ⟨⟨rfl, rfl, rfl, rfl, rfl, rfl, rfl, rfl, rfl, rfl⟩, ?_, ?_, ?_, ?_⟩
  · intro l hl
    match l, hl with
    | a :: t, _ =>
      constructor
      · show readInt8 (a :: t) = specSizeIntBE 1 (a :: t)
        simp [readInt8, specSizeIntBE, u8, List.take, List.foldl]
      · show readUInt8 (a :: t) = specSizeUIntBE 1 (a :: t)
        simp [readUInt8, specSizeUIntBE, u8, List.take, List.foldl]
  · intro l hl
    match l, hl with
    | a :: b :: t, _ =>
      refine ⟨?_, ?_, ?_, ?_⟩
      · show readInt16BE (a :: b :: t) = specSizeIntBE 2 (a :: b :: t)
        simp only [readInt16BE, specSizeIntBE, beNat_two, u16BE]
        norm_num [List.getD]
      · show readUInt16BE (a :: b :: t) = specSizeUIntBE 2 (a :: b :: t)
        simp only [readUInt16BE, specSizeUIntBE, beNat_two, u16BE]
        norm_num [List.getD]
      · show readInt16LE (a :: b :: t) = specSizeIntLE 2 (a :: b :: t)
        simp only [readInt16LE, specSizeIntLE, beNat_two_rev, u16LE]
        norm_num [List.getD]
        ring_nf
      · show readUInt16LE (a :: b :: t) = specSizeUIntLE 2 (a :: b :: t)
        simp only [readUInt16LE, specSizeUIntLE, beNat_two_rev, u16LE]
        norm_num [List.getD]
        ring_nf
  · intro l hl
    match l, hl with
    | a :: b :: c :: d :: t, _ =>
      refine ⟨?_, ?_, ?_, ?_⟩
      · show readInt32BE (a :: b :: c :: d :: t) = specSizeIntBE 4 (a :: b :: c :: d :: t)
        simp only [readInt32BE, specSizeIntBE, beNat_four, u32BE]
        norm_num [List.getD]
        ring_nf
      · show readUInt32BE (a :: b :: c :: d :: t) = specSizeUIntBE 4 (a :: b :: c :: d :: t)
        simp only [readUInt32BE, specSizeUIntBE, beNat_four, u32BE]
        norm_num [List.getD]
        ring_nf
      · show readInt32LE (a :: b :: c :: d :: t) = specSizeIntLE 4 (a :: b :: c :: d :: t)
        simp only [readInt32LE, specSizeIntLE, beNat_four_rev, u32LE]
        norm_num [List.getD]
        ring_nf
      · show readUInt32LE (a :: b :: c :: d :: t) = specSizeUIntLE 4 (a :: b :: c :: d :: t)
        simp only [readUInt32LE, specSizeUIntLE, beNat_four_rev, u32LE]
        norm_num [List.getD]
        ring_nf
  · intro s
    refine ⟨?_, ?_, ?_, ?_, ?_, ?_, ?_, ?_, ?_, ?_⟩ <;>
      simp [HeaderExtractorInt8, HeaderExtractorUInt8, HeaderExtractorInt16BE,
        HeaderExtractorUInt16BE, HeaderExtractorInt16LE, HeaderExtractorUInt16LE,
        HeaderExtractorInt32BE, HeaderExtractorUInt32BE, HeaderExtractorInt32LE,
        HeaderExtractorUInt32LE, createPODExtractor]

/-- Witness for C7: instantiation at a concrete header — the Int16LE
extractor decodes the header `[6, 0, 99]` to size 6 (little-endian), which
its validator accepts, and the catalog theorem's clauses hold there. -/
theorem standard_extractor_catalog_witness :
    HeaderExtractorInt16LE.extractMessageSize [6, 0, 99] = specSizeIntLE 2 [6, 0, 99] ∧
    (HeaderExtractorInt16LE.validateMessageSize 6 = true ↔ (2 : Int) ≤ 6) :=
  ⟨((standard_extractor_catalog.2.2.1 [6, 0, 99] (by decide)).2.2.1),
   (standard_extractor_catalog.2.2.2.2 6).2.2.2.2.1⟩

lemma append_size_eq (st : ParserState) (bytes : List Nat) (offset count : Int) :
    (appendToUnfinishedMessage st bytes offset count).unfinishedMessageSize
      = ((st.unfinishedMessageSize : Int) + count).toNat := by
  unfold appendToUnfinishedMessage
  dsimp only
  split <;> rfl

lemma append_headerFlag_eq (st : ParserState) (bytes : List Nat) (offset count : Int) :
    (appendToUnfinishedMessage st bytes offset count).bMessageHeaderExtracted
      = st.bMessageHeaderExtracted := by
  unfold appendToUnfinishedMessage
  dsimp only
  split <;> rfl

lemma append_expected_eq (st : ParserState) (bytes : List Nat) (offset count : Int) :
    (appendToUnfinishedMessage st bytes offset count).expectedMessageSize
      = st.expectedMessageSize := by
  unfold appendToUnfinishedMessage
  dsimp only
  split <;> rfl

lemma stepStartPartialHeader_eq (ex : HeaderExtractor) (st : ParserState)
    (bytes : List Nat) (offset : Int)
    (h0 : st.unfinishedMessageSize = 0)
    (h1 : (bytes.length : Int) - offset < (ex.headerByteCount : Int)) :
    stepFn ex st bytes offset
      = ({ appendToUnfinishedMessage st bytes offset ((bytes.length : Int) - offset) with
           expectedMessageSize := (ex.headerByteCount : Int)
           bMessageHeaderExtracted := false },
         (bytes.length : Int) - offset, []) := by
  unfold stepFn startNewMessage
  rw [if_pos h0]
  simp only [if_pos h1]

lemma stepStartInvalid_eq (ex : HeaderExtractor) (st : ParserState)
    (bytes : List Nat) (offset : Int)
    (h0 : st.unfinishedMessageSize = 0)
    (h1 : ¬ ((bytes.length : Int) - offset < (ex.headerByteCount : Int)))
    (h2 : ex.validateMessageSize (extractMessageSizeAt ex bytes offset) ≠ true) :
    stepFn ex st bytes offset
      = (st, -1, [Notif.error (extractMessageSizeAt ex bytes offset)]) := by
  unfold stepFn startNewMessage
  rw [if_pos h0]
  simp only [if_neg h1, if_pos h2]

lemma stepStartWhole_eq (ex : HeaderExtractor) (st : ParserState)
    (bytes : List Nat) (offset : Int)
    (h0 : st.unfinishedMessageSize = 0)
    (h1 : ¬ ((bytes.length : Int) - offset < (ex.headerByteCount : Int)))
    (h2 : ex.validateMessageSize (extractMessageSizeAt ex bytes offset) = true)
    (h3 : (bytes.length : Int) - offset ≥ extractMessageSizeAt ex bytes offset) :
    stepFn ex st bytes offset
      = ((notifyMessageReceived st bytes offset (extractMessageSizeAt ex bytes offset)).1,
         extractMessageSizeAt ex bytes offset,
         [(notifyMessageReceived st bytes offset (extractMessageSizeAt ex bytes offset)).2]) := by
  unfold stepFn startNewMessage
  rw [if_pos h0]
  simp only [if_neg h1, if_neg (by simp [h2] : ¬ ex.validateMessageSize
    (extractMessageSizeAt ex bytes offset) ≠ true), if_pos h3]

lemma stepStartPartialBody_eq (ex : HeaderExtractor) (st : ParserState)
    (bytes : List Nat) (offset : Int)
    (h0 : st.unfinishedMessageSize = 0)
    (h1 : ¬ ((bytes.length : Int) - offset < (ex.headerByteCount : Int)))
    (h2 : ex.validateMessageSize (extractMessageSizeAt ex bytes offset) = true)
    (h3 : ¬ ((bytes.length : Int) - offset ≥ extractMessageSizeAt ex bytes offset)) :
    stepFn ex st bytes offset
      = ({ appendToUnfinishedMessage st bytes offset ((bytes.length : Int) - offset) with
           expectedMessageSize := extractMessageSizeAt ex bytes offset
           bMessageHeaderExtracted := true },
         (bytes.length : Int) - offset, []) := by
  unfold stepFn startNewMessage
  rw [if_pos h0]
  simp only [if_neg h1, if_neg (by simp [h2] : ¬ ex.validateMessageSize
    (extractMessageSizeAt ex bytes offset) ≠ true), if_neg h3]

lemma stepContPartial_eq (ex : HeaderExtractor) (st : ParserState)
    (bytes : List Nat) (offset : Int)
    (h0 : ¬ (st.unfinishedMessageSize = 0))
    (h1 : (bytes.length : Int) - offset
        < st.expectedMessageSize - (st.unfinishedMessageSize : Int)) :
    stepFn ex st bytes offset
      = (appendToUnfinishedMessage st bytes offset ((bytes.length : Int) - offset),
         (bytes.length : Int) - offset, []) := by
  unfold stepFn continueUnfinishedMessage
  rw [if_neg h0]
  simp only [if_pos h1]

lemma stepContComplete_eq (ex : HeaderExtractor) (st : ParserState)
    (bytes : List Nat) (offset : Int)
    (h0 : ¬ (st.unfinishedMessageSize = 0))
    (h1 : ¬ ((bytes.length : Int) - offset
        < st.expectedMessageSize - (st.unfinishedMessageSize : Int)))
    (h2 : (appendToUnfinishedMessage st bytes offset
        (st.expectedMessageSize - (st.unfinishedMessageSize : Int))).bMessageHeaderExtracted
      = true) :
    stepFn ex st bytes offset
      = ((notifyMessageReceived
            (appendToUnfinishedMessage st bytes offset
              (st.expectedMessageSize - (st.unfinishedMessageSize : Int)))
            (appendToUnfinishedMessage st bytes offset
              (st.expectedMessageSize - (st.unfinishedMessageSize : Int))).unfinishedMessageBuffer
            0
            (appendToUnfinishedMessage st bytes offset
              (st.expectedMessageSize - (st.unfinishedMessageSize : Int))).expectedMessageSize).1,
         st.expectedMessageSize - (st.unfinishedMessageSize : Int),
         [(notifyMessageReceived
            (appendToUnfinishedMessage st bytes offset
              (st.expectedMessageSize - (st.unfinishedMessageSize : Int)))
            (appendToUnfinishedMessage st bytes offset
              (st.expectedMessageSize - (st.unfinishedMessageSize : Int))).unfinishedMessageBuffer
            0
            (appendToUnfinishedMessage st bytes offset
              (st.expectedMessageSize - (st.unfinishedMessageSize : Int))).expectedMessageSize).2]) := by
  unfold stepFn continueUnfinishedMessage
  rw [if_neg h0]
  simp only [if_neg h1, h2, if_pos]

lemma stepContHeaderInvalid_eq (ex : HeaderExtractor) (st : ParserState)
    (bytes : List Nat) (offset : Int)
    (h0 : ¬ (st.unfinishedMessageSize = 0))
    (h1 : ¬ ((bytes.length : Int) - offset
        < st.expectedMessageSize - (st.unfinishedMessageSize : Int)))
    (h2 : (appendToUnfinishedMessage st bytes offset
        (st.expectedMessageSize - (st.unfinishedMessageSize : Int))).bMessageHeaderExtracted
      = false)
    (h3 : ex.validateMessageSize (extractMessageSizeAt ex
        (appendToUnfinishedMessage st bytes offset
          (st.expectedMessageSize - (st.unfinishedMessageSize : Int))).unfinishedMessageBuffer
        0) ≠ true) :
    stepFn ex st bytes offset
      = ({ appendToUnfinishedMessage st bytes offset
             (st.expectedMessageSize - (st.unfinishedMessageSize : Int)) with
           expectedMessageSize := extractMessageSizeAt ex
             (appendToUnfinishedMessage st bytes offset
               (st.expectedMessageSize - (st.unfinishedMessageSize : Int))).unfinishedMessageBuffer
             0
           bMessageHeaderExtracted := true },
         -1,
         [Notif.error (extractMessageSizeAt ex
           (appendToUnfinishedMessage st bytes offset
             (st.expectedMessageSize - (st.unfinishedMessageSize : Int))).unfinishedMessageBuffer
           0)]) := by
  unfold stepFn continueUnfinishedMessage
  rw [if_neg h0]
  simp only [if_neg h1, h2, Bool.false_eq_true, if_false, if_pos h3]

lemma stepContHeaderOk_eq (ex : HeaderExtractor) (st : ParserState)
    (bytes : List Nat) (offset : Int)
    (h0 : ¬ (st.unfinishedMessageSize = 0))
    (h1 : ¬ ((bytes.length : Int) - offset
        < st.expectedMessageSize - (st.unfinishedMessageSize : Int)))
    (h2 : (appendToUnfinishedMessage st bytes offset
        (st.expectedMessageSize - (st.unfinishedMessageSize : Int))).bMessageHeaderExtracted
      = false)
    (h3 : ex.validateMessageSize (extractMessageSizeAt ex
        (appendToUnfinishedMessage st bytes offset
          (st.expectedMessageSize - (st.unfinishedMessageSize : Int))).unfinishedMessageBuffer
        0) = true) :
    stepFn ex st bytes offset
      = ({ appendToUnfinishedMessage st bytes offset
             (st.expectedMessageSize - (st.unfinishedMessageSize : Int)) with
           expectedMessageSize := extractMessageSizeAt ex
             (appendToUnfinishedMessage st bytes offset
               (st.expectedMessageSize - (st.unfinishedMessageSize : Int))).unfinishedMessageBuffer
             0
           bMessageHeaderExtracted := true },
         st.expectedMessageSize - (st.unfinishedMessageSize : Int), []) := by
  unfold stepFn continueUnfinishedMessage
  rw [if_neg h0]
  simp only [if_neg h1, h2, Bool.false_eq_true, if_false,
    if_neg (by simp [h3] : ¬ ex.validateMessageSize (extractMessageSizeAt ex
      (appendToUnfinishedMessage st bytes offset
        (st.expectedMessageSize - (st.unfinishedMessageSize : Int))).unfinishedMessageBuffer
      0) ≠ true)]

lemma term_phase0 (ex : HeaderExtractor) (bytes : List Nat)
    (H : ∀ s, ex.validateMessageSize s = true → 1 ≤ s) :
    ∀ (m : Nat) (st : ParserState) (offset : Int),
      ((bytes.length : Int) - offset).toNat ≤ m → st.unfinishedMessageSize = 0 →
      ∃ n r, parseBytesLoop ex n st bytes offset = some r := by
  intro m
  induction m with
  | zero =>
    intro st offset hm h0
    exact ⟨1, (st, true, []), parseBytesLoop_exit ex 0 st bytes offset (by omega)⟩
  | succ m ih =>
    intro st offset hm h0
    by_cases hoff : offset < (bytes.length : Int)
    · by_cases h1 : (bytes.length : Int) - offset < (ex.headerByteCount : Int)
      · -- fewer bytes than the header: buffer them, the chunk is exhausted
        have hstep := stepStartPartialHeader_eq ex st bytes offset h0 h1
        have e1 := parseBytesLoop_step ex 1 st _ bytes offset
          ((bytes.length : Int) - offset) [] hoff hstep (by omega)
        rw [parseBytesLoop_exit ex 0 _ bytes (offset + ((bytes.length : Int) - offset))
          (by omega)] at e1
        exact ⟨2, _, e1⟩
      · by_cases h2 : ex.validateMessageSize (extractMessageSizeAt ex bytes offset) = true
        · by_cases h3 : (bytes.length : Int) - offset ≥ extractMessageSizeAt ex bytes offset
          · -- a whole message is available: emit it and keep draining
            have hstep := stepStartWhole_eq ex st bytes offset h0 h1 h2 h3
            have hs1 : 1 ≤ extractMessageSizeAt ex bytes offset := H _ h2
            obtain ⟨n, r, hr⟩ := ih
              (notifyMessageReceived st bytes offset (extractMessageSizeAt ex bytes offset)).1
              (offset + extractMessageSizeAt ex bytes offset) (by omega) rfl
            have e1 := parseBytesLoop_step ex n st _ bytes offset
              (extractMessageSizeAt ex bytes offset) _ hoff hstep (by omega)
            rw [hr] at e1
            rcases r with ⟨stB, okB, nsB⟩
            exact ⟨n + 1, _, e1⟩
          · -- message bigger than the rest of the chunk: buffer and stop
            have hstep := stepStartPartialBody_eq ex st bytes offset h0 h1 h2 h3
            have e1 := parseBytesLoop_step ex 1 st _ bytes offset
              ((bytes.length : Int) - offset) [] hoff hstep (by omega)
            rw [parseBytesLoop_exit ex 0 _ bytes (offset + ((bytes.length : Int) - offset))
              (by omega)] at e1
            exact ⟨2, _, e1⟩
        · -- invalid size: fatal error, loop aborts
          have hstep := stepStartInvalid_eq ex st bytes offset h0 h1 (by simp [h2])
          exact ⟨1, _, parseBytesLoop_failStep ex 0 st _ bytes offset _ _ hoff hstep
            (by omega)⟩
    · exact ⟨1, (st, true, []), parseBytesLoop_exit ex 0 st bytes offset hoff⟩

lemma term_phase1 (ex : HeaderExtractor) (bytes : List Nat)
    (H : ∀ s, ex.validateMessageSize s = true → 1 ≤ s)
    (st : ParserState) (offset : Int)
    (hn0 : ¬ (st.unfinishedMessageSize = 0))
    (hx : st.bMessageHeaderExtracted = true) :
    ∃ n r, parseBytesLoop ex n st bytes offset = some r := by
  by_cases hoff : offset < (bytes.length : Int)
  · by_cases h1 : (bytes.length : Int) - offset
        < st.expectedMessageSize - (st.unfinishedMessageSize : Int)
    · -- still missing bytes: buffer the whole chunk and stop
      have hstep := stepContPartial_eq ex st bytes offset hn0 h1
      have e1 := parseBytesLoop_step ex 1 st _ bytes offset
        ((bytes.length : Int) - offset) [] hoff hstep (by omega)
      rw [parseBytesLoop_exit ex 0 _ bytes (offset + ((bytes.length : Int) - offset))
        (by omega)] at e1
      exact ⟨2, _, e1⟩
    · have h2 : (appendToUnfinishedMessage st bytes offset
          (st.expectedMessageSize - (st.unfinishedMessageSize : Int))).bMessageHeaderExtracted
        = true := by rw [append_headerFlag_eq, hx]
      have hstep := stepContComplete_eq ex st bytes offset hn0 h1 h2
      by_cases hp : st.expectedMessageSize - (st.unfinishedMessageSize : Int) < 0
      · -- negative return value: parseBytes treats it as fatal and aborts
        exact ⟨1, _, parseBytesLoop_failStep ex 0 st _ bytes offset _ _ hoff hstep hp⟩
      · -- message completed from the carry: emit and continue idle
        obtain ⟨n, r, hr⟩ := term_phase0 ex bytes H
          (((bytes.length : Int) - (offset + (st.expectedMessageSize
            - (st.unfinishedMessageSize : Int)))).toNat)
          ((notifyMessageReceived
            (appendToUnfinishedMessage st bytes offset
              (st.expectedMessageSize - (st.unfinishedMessageSize : Int)))
            (appendToUnfinishedMessage st bytes offset
              (st.expectedMessageSize - (st.unfinishedMessageSize : Int))).unfinishedMessageBuffer
            0
            (appendToUnfinishedMessage st bytes offset
              (st.expectedMessageSize - (st.unfinishedMessageSize : Int))).expectedMessageSize).1)
          (offset + (st.expectedMessageSize - (st.unfinishedMessageSize : Int)))
          (le_refl _) rfl
        have e1 := parseBytesLoop_step ex n st _ bytes offset
          (st.expectedMessageSize - (st.unfinishedMessageSize : Int)) _ hoff hstep hp
        rw [hr] at e1
        rcases r with ⟨stB, okB, nsB⟩
        exact ⟨n + 1, _, e1⟩
  · exact ⟨1, (st, true, []), parseBytesLoop_exit ex 0 st bytes offset hoff⟩

lemma term_phase2 (ex : HeaderExtractor) (bytes : List Nat)
    (H : ∀ s, ex.validateMessageSize s = true → 1 ≤ s)
    (st : ParserState) (offset : Int)
    (hn0 : ¬ (st.unfinishedMessageSize = 0))
    (hx : st.bMessageHeaderExtracted = false)
    (hlt : st.unfinishedMessageSize < ex.headerByteCount)
    (hexp : st.expectedMessageSize = (ex.headerByteCount : Int)) :
    ∃ n r, parseBytesLoop ex n st bytes offset = some r := by
  by_cases hoff : offset < (bytes.length : Int)
  · by_cases h1 : (bytes.length : Int) - offset
        < st.expectedMessageSize - (st.unfinishedMessageSize : Int)
    · have hstep := stepContPartial_eq ex st bytes offset hn0 h1
      have e1 := parseBytesLoop_step ex 1 st _ bytes offset
        ((bytes.length : Int) - offset) [] hoff hstep (by omega)
      rw [parseBytesLoop_exit ex 0 _ bytes (offset + ((bytes.length : Int) - offset))
        (by omega)] at e1
      exact ⟨2, _, e1⟩
    · have h2 : (appendToUnfinishedMessage st bytes offset
          (st.expectedMessageSize - (st.unfinishedMessageSize : Int))).bMessageHeaderExtracted
        = false := by rw [append_headerFlag_eq, hx]
      by_cases h3 : ex.validateMessageSize (extractMessageSizeAt ex
          (appendToUnfinishedMessage st bytes offset
            (st.expectedMessageSize - (st.unfinishedMessageSize : Int))).unfinishedMessageBuffer
          0) = true
      · -- header completed and validated: now in the header-resolved phase
        have hstep := stepContHeaderOk_eq ex st bytes offset hn0 h1 h2 (by simp [h3])
        have hsz : ({ appendToUnfinishedMessage st bytes offset
              (st.expectedMessageSize - (st.unfinishedMessageSize : Int)) with
            expectedMessageSize := extractMessageSizeAt ex
              (appendToUnfinishedMessage st bytes offset
                (st.expectedMessageSize - (st.unfinishedMessageSize : Int))).unfinishedMessageBuffer
              0
            bMessageHeaderExtracted := true } : ParserState).unfinishedMessageSize
            = ex.headerByteCount := by
          show (appendToUnfinishedMessage st bytes offset
            (st.expectedMessageSize - (st.unfinishedMessageSize : Int))).unfinishedMessageSize
            = ex.headerByteCount
          rw [append_size_eq, hexp]
          omega
        obtain ⟨n, r, hr⟩ := term_phase1 ex bytes H _
          (offset + (st.expectedMessageSize - (st.unfinishedMessageSize : Int)))
          (by rw [hsz]; omega) rfl
        have e1 := parseBytesLoop_step ex n st _ bytes offset
          (st.expectedMessageSize - (st.unfinishedMessageSize : Int)) _ hoff hstep
          (by omega)
        rw [hr] at e1
        rcases r with ⟨stB, okB, nsB⟩
        exact ⟨n + 1, _, e1⟩
      · -- header completed but its size is invalid: fatal error
        have hstep := stepContHeaderInvalid_eq ex st bytes offset hn0 h1 h2 (by simp [h3])
        exact ⟨1, _, parseBytesLoop_failStep ex 0 st _ bytes offset _ _ hoff hstep
          (by omega)⟩
  · exact ⟨1, (st, true, []), parseBytesLoop_exit ex 0 st bytes offset hoff⟩

lemma stepFn_preserves_sane (ex : HeaderExtractor) (st : ParserState) (bytes : List Nat)
    (offset : Int) (st1 : ParserState) (p : Int) (ns : List Notif)
    (hoff : offset < (bytes.length : Int))
    (h : stepFn ex st bytes offset = (st1, p, ns))
    (hsane : SaneCarry ex st) : SaneCarry ex st1 := by
  by_cases h0 : st.unfinishedMessageSize = 0
  · by_cases h1 : (bytes.length : Int) - offset < (ex.headerByteCount : Int)
    · rw [stepStartPartialHeader_eq ex st bytes offset h0 h1] at h
      injection h with hA h'
      subst hA
      intro hext hne
      constructor
      · show (appendToUnfinishedMessage st bytes offset
            ((bytes.length : Int) - offset)).unfinishedMessageSize < ex.headerByteCount
        rw [append_size_eq, h0]
        omega
      · rfl
    · by_cases h2 : ex.validateMessageSize (extractMessageSizeAt ex bytes offset) = true
      · by_cases h3 : (bytes.length : Int) - offset ≥ extractMessageSizeAt ex bytes offset
        · rw [stepStartWhole_eq ex st bytes offset h0 h1 h2 h3] at h
          injection h with hA h'
          subst hA
          intro hext hne
          exact absurd rfl hne
        · rw [stepStartPartialBody_eq ex st bytes offset h0 h1 h2 h3] at h
          injection h with hA h'
          subst hA
          intro hext hne
          exact Bool.noConfusion hext
      · rw [stepStartInvalid_eq ex st bytes offset h0 h1 (by simp [h2])] at h
        injection h with hA h'
        subst hA
        exact hsane
  · by_cases h1 : (bytes.length : Int) - offset
        < st.expectedMessageSize - (st.unfinishedMessageSize : Int)
    · rw [stepContPartial_eq ex st bytes offset h0 h1] at h
      injection h with hA h'
      subst hA
      intro hext hne
      rw [append_headerFlag_eq] at hext
      obtain ⟨hlt, hexp⟩ := hsane hext h0
      constructor
      · rw [append_size_eq]
        rw [hexp] at h1
        omega
      · rw [append_expected_eq]
        exact hexp
    · by_cases h2 : (appendToUnfinishedMessage st bytes offset
          (st.expectedMessageSize - (st.unfinishedMessageSize : Int))).bMessageHeaderExtracted
        = true
      · rw [stepContComplete_eq ex st bytes offset h0 h1 h2] at h
        injection h with hA h'
        subst hA
        intro hext hne
        exact absurd rfl hne
      · by_cases h3 : ex.validateMessageSize (extractMessageSizeAt ex
            (appendToUnfinishedMessage st bytes offset
              (st.expectedMessageSize - (st.unfinishedMessageSize : Int))).unfinishedMessageBuffer
            0) = true
        · rw [stepContHeaderOk_eq ex st bytes offset h0 h1 (by simpa using h2)
            (by simp [h3])] at h
          injection h with hA h'
          subst hA
          intro hext hne
          exact Bool.noConfusion hext
        · rw [stepContHeaderInvalid_eq ex st bytes offset h0 h1 (by simpa using h2)
            (by simp [h3])] at h
          injection h with hA h'
          subst hA
          intro hext hne
          exact Bool.noConfusion hext

lemma parseBytesLoop_preserves_sane (ex : HeaderExtractor) :
    ∀ (fuel : Nat) (st : ParserState) (bytes : List Nat) (offset : Int)
      (stF : ParserState) (ok : Bool) (ns : List Notif),
      parseBytesLoop ex fuel st bytes offset = some (stF, ok, ns) →
      SaneCarry ex st → SaneCarry ex stF := by
  intro fuel
  induction fuel with
  | zero =>
    intro st bytes offset stF ok ns h
    exact absurd h (by simp [parseBytesLoop])
  | succ n ih =>
    intro st bytes offset stF ok ns h hsane
    by_cases hoff : offset < (bytes.length : Int)
    · rcases hstep : stepFn ex st bytes offset with ⟨stA, p, ns1⟩
      have hsaneA := stepFn_preserves_sane ex st bytes offset stA p ns1 hoff hstep hsane
      by_cases hp : p < 0
      · rw [parseBytesLoop_failStep ex n st stA bytes offset p ns1 hoff hstep hp] at h
        simp only [Option.some.injEq, Prod.mk.injEq] at h
        obtain ⟨hSt, -, -⟩ := h
        rw [← hSt]
        intro hext hne
        exact hsaneA hext hne
      · rw [parseBytesLoop_step ex n st stA bytes offset p ns1 hoff hstep hp] at h
        rcases hrec : parseBytesLoop ex n stA bytes (offset + p) with - | ⟨stB, okB, nsB⟩
        · rw [hrec] at h
          exact absurd h (by simp)
        · rw [hrec] at h
          simp only [Option.some.injEq, Prod.mk.injEq] at h
          obtain ⟨hSt, -, -⟩ := h
          rw [← hSt]
          exact ih stA bytes (offset + p) stB okB nsB hrec hsaneA
    · rw [parseBytesLoop_exit ex n st bytes offset hoff] at h
      simp only [Option.some.injEq, Prod.mk.injEq] at h
      obtain ⟨hSt, -, -⟩ := h
      rw [← hSt]
      exact hsane

lemma zeroSize_loop_diverges :
    ∀ n, parseBytesLoop zeroSizeExtractor n
      ⟨List.replicate 4 0, 0, 0, false, false⟩ [0] 0 = none := by
  intro n
  induction n with
  | zero => rfl
  | succ k ih =>
    have hstep : stepFn zeroSizeExtractor ⟨List.replicate 4 0, 0, 0, false, false⟩ [0] 0
        = (⟨List.replicate 4 0, 0, 0, false, false⟩, 0, [Notif.message []]) := by decide
    have e1 := parseBytesLoop_step zeroSizeExtractor k
      ⟨List.replicate 4 0, 0, 0, false, false⟩
      ⟨List.replicate 4 0, 0, 0, false, false⟩ [0] 0 0 [Notif.message []]
      (by decide) hstep (by decide)
    rw [e1]
    have ih2 : parseBytesLoop zeroSizeExtractor k
        ⟨List.replicate 4 0, 0, 0, false, false⟩ [0] ((0 : Int) + 0) = none := ih
    rw [ih2]

/-- C10: termination of the drain loop. (1) For every extractor whose
validator only accepts sizes ≥ 1, `parseBytes` terminates on every chunk
from every sane-carry state (some finite fuel makes the embedded loop
return); (2) sane carry is preserved by every `parseBytes` call, and (3)
holds for every idle state, so it covers every reachable state; (4) when
the extracted size 0 is accepted — as under the installed always-true
default validator — the loop advances its offset by 0 each iteration and
`parseBytes` does not terminate: it exhausts EVERY fuel bound on the
1-byte chunk `[0]`. -/
theorem drain_loop_termination :
    (∀ (ex : HeaderExtractor) (st : ParserState) (bytes : List Nat),
        (∀ s, ex.validateMessageSize s = true → 1 ≤ s) → SaneCarry ex st →
        ∃ n r, parseBytes ex n st bytes = some r) ∧
    (∀ (ex : HeaderExtractor) (fuel : Nat) (st stF : ParserState) (bytes : List Nat)
        (ok : Bool) (ns : List Notif),
        parseBytes ex fuel st bytes = some (stF, ok, ns) →
        SaneCarry ex st → SaneCarry ex stF) ∧
    (∀ (ex : HeaderExtractor) (st : ParserState),
        st.unfinishedMessageSize = 0 → SaneCarry ex st) ∧
    (∀ fuel : Nat,
        parseBytes zeroSizeExtractor fuel
          ⟨List.replicate 4 0, 0, 0, false, false⟩ [0] = none) := by
  refine ⟨?_, ?_, ?_, ?_⟩
  · intro ex st bytes H hsane
    by_cases hsd : st.bShutdown = true
    · exact ⟨0, (st, false, []), by simp [parseBytes, hsd]⟩
    · have hrun : ∃ n r, parseBytesLoop ex n st bytes 0 = some r := by
        by_cases h0 : st.unfinishedMessageSize = 0
        · exact term_phase0 ex bytes H ((bytes.length : Int) - 0).toNat st 0 (le_refl _) h0
        · by_cases hx : st.bMessageHeaderExtracted = true
          · exact term_phase1 ex bytes H st 0 h0 hx
          · obtain ⟨hlt, hexp⟩ := hsane (by simpa using hx) h0
            exact term_phase2 ex bytes H st 0 h0 (by simpa using hx) hlt hexp
      obtain ⟨n, r, hr⟩ := hrun
      exact ⟨n, r, by simpa [parseBytes, hsd] using hr⟩
  · intro ex fuel st stF bytes ok ns h hsane
    unfold parseBytes at h
    split at h
    · simp only [Option.some.injEq, Prod.mk.injEq] at h
      obtain ⟨hSt, -, -⟩ := h
      rw [← hSt]
      exact hsane
    · exact parseBytesLoop_preserves_sane ex fuel st bytes 0 stF ok ns h hsane
  · intro ex st h0 hext hne
    exact absurd h0 hne
  · intro fuel
    simpa [parseBytes] using zeroSize_loop_diverges fuel

/-- Witness for C10: with the standard UInt8 extractor (validator accepts
only sizes ≥ 1) the loop terminates on the chunk `[5, 1, 2, 3, 4]` from
the freshly constructed state. -/
theorem drain_loop_termination_witness :
    ∃ n r, parseBytes HeaderExtractorUInt8 n
      ⟨List.replicate 4 0, 0, 0, false, false⟩ [5, 1, 2, 3, 4] = some r :=
  drain_loop_termination.1 HeaderExtractorUInt8
    ⟨List.replicate 4 0, 0, 0, false, false⟩ [5, 1, 2, 3, 4]
    (by
      intro s hs
      simp [HeaderExtractorUInt8, createPODExtractor] at hs
      exact_mod_cast hs)
    (by decide)

end BinaryMessageParser
